import Mathlib

/-!
Verification development for the PyEventEngine core (topic model & matcher,
event hook dispatch, dispatch engine) and its legacy topic tier.

The capi tier (`event_engine/capi`) is implemented in Cython extension modules
(`c_topic.pyx`, `c_event.pyx`, `c_engine.pyx`) that are declared in `setup.py`
and exercised by the tests under `test/`, but whose sources are not present in
the repository snapshot.  The definitions in the `Capi` namespace are therefore
modelled from the specification (and, where the specification is silent or
contradicts the repository's own tests, from the behaviour the tests pin
down); each such definition says so in its doc comment.

The legacy tier (`EventEngine/Core/_Topic.py`) is present in full and the
`Legacy` namespace embeds it directly.
-/

namespace PyEventEngine

namespace Capi

/-- Modelled from the spec: the four-case tagged variant of a topic part
(§3 "Topic part"): `Exact(literal)`, `Any(name)`, `Range(options)`,
`Pattern(regex)`.  The Cython implementation (`c_topic.pyx`) is not in the
snapshot; the variant layout follows the spec and the classes
`TopicPartExact`/`TopicPartAny`/`TopicPartRange`/`TopicPartPattern` used by
`test/capi_topic_test.py`. -/
inductive TopicPart where
  | exact (literal : String)
  | any (name : String)
  | range (options : List String)
  | pattern (regex : String)
  deriving DecidableEq, Repr

/-- Abstract error kind for topic parsing / engine operations (§6 "Error
kinds", names illustrative; the capi code surfaces them as Python
`ValueError` / `KeyError` / `queue.Full` / `queue.Empty`). -/
inductive EngineError where
  | invalidTopic
  | duplicateTopic
  | unknownTopic
  | full
  | empty
  deriving DecidableEq, Repr

/-- State of the part splitter: outside any span, inside a `/…/` span, or
inside a `(…)` span.  Dots inside either span do not split (§4.1). -/
inductive SplitState where
  | normal
  | inPattern
  | inRange
  deriving DecidableEq, Repr

/-- Append the accumulated characters as one more part; an empty accumulator
contributes nothing (consecutive, leading or trailing dots produce no empty
parts: `Topic("./pat/.")` has a single part in the tests). -/
def flushPart (parts : List String) (acc : List Char) : List String :=
  if acc = [] then parts else parts ++ [String.mk acc]

/-- Modelled from the spec: the split phase of topic parsing (§4.1).  Splits
on `.` outside of `/…/` and `(…)` spans; a span opens only at the start of a
part; an unterminated `/…/` span is a parse failure, while an unterminated
`(…)` span simply ends the final part (the tests pin `Topic("(unclosed")`
parsing to a literal part). -/
def splitGo : List Char → List Char → SplitState → List String →
    Except EngineError (List String)
  | [], acc, st, parts =>
    match st with
    | .inPattern => .error .invalidTopic
    | _ => .ok (flushPart parts acc)
  | c :: rest, acc, st, parts =>
    match st with
    | .normal =>
      if c = '.' then splitGo rest [] .normal (flushPart parts acc)
      else if c = '/' ∧ acc = [] then splitGo rest [c] .inPattern parts
      else if c = '(' ∧ acc = [] then splitGo rest [c] .inRange parts
      else splitGo rest (acc ++ [c]) .normal parts
    | .inPattern =>
      if c = '/' then splitGo rest (acc ++ [c]) .normal parts
      else splitGo rest (acc ++ [c]) .inPattern parts
    | .inRange =>
      if c = ')' then splitGo rest (acc ++ [c]) .normal parts
      else splitGo rest (acc ++ [c]) .inRange parts

/-- Split a topic string into its raw parts. -/
def splitTopic (s : String) : Except EngineError (List String) :=
  splitGo s.data [] .normal []

/-- Split a character list on a separator character, keeping empty pieces —
the semantics of Python's `str.split(sep)` for a one-character separator. -/
def splitOnCharGo (sep : Char) : List Char → List Char → List String
  | [], acc => [String.mk acc]
  | c :: rest, acc =>
    if c = sep then String.mk acc :: splitOnCharGo sep rest []
    else splitOnCharGo sep rest (acc ++ [c])

/-- `s.split(sep)` for a one-character separator (Python semantics: empty
pieces are kept, the empty string yields `[""]`). -/
def splitOnChar (sep : Char) (s : String) : List String :=
  splitOnCharGo sep s.data []

/-- Modelled from the spec: per-part classification (§4.1, rules 1–5 in order
of test).  `rxValid` stands in for the external regex compiler: rule 1 fails
with `InvalidTopic` when the regex does not compile. -/
def classifyChars (rxValid : String → Bool) (cs : List Char) :
    Except EngineError TopicPart :=
  if cs.head? = some '/' ∧ cs.getLast? = some '/' ∧ 3 ≤ cs.length then
    let inner := String.mk ((cs.drop 1).dropLast)
    if rxValid inner then .ok (.pattern inner) else .error .invalidTopic
  else if cs.head? = some '(' ∧ cs.getLast? = some ')' then
    let inner := String.mk ((cs.drop 1).dropLast)
    if inner = "" then .ok (.exact (String.mk cs))
    else .ok (.range (splitOnChar '|' inner))
  else if cs.head? = some '+' then
    if 2 ≤ cs.length then .ok (.any (String.mk (cs.drop 1)))
    else .ok (.exact (String.mk cs))
  else if cs.head? = some '{' ∧ cs.getLast? = some '}' ∧ 3 ≤ cs.length then
    .ok (.any (String.mk ((cs.drop 1).dropLast)))
  else .ok (.exact (String.mk cs))

/-- Classify one raw part. -/
def classifyPart (rxValid : String → Bool) (s : String) :
    Except EngineError TopicPart :=
  classifyChars rxValid s.data

/-- Classify every raw part, stopping at the first failure. -/
def classifyAll (rxValid : String → Bool) :
    List String → Except EngineError (List TopicPart)
  | [] => .ok []
  | p :: ps =>
    match classifyPart rxValid p with
    | .error e => .error e
    | .ok part =>
      match classifyAll rxValid ps with
      | .error e => .error e
      | .ok rest => .ok (part :: rest)

/-- Modelled from the spec: the full topic parser (§4.1): split, reject an
empty part list (an empty input string is invalid), classify each part. -/
def parseTopic (rxValid : String → Bool) (s : String) :
    Except EngineError (List TopicPart) :=
  (splitTopic s).bind fun parts =>
    if parts = [] then .error .invalidTopic
    else classifyAll rxValid parts

/-- Canonical rendering of one part (§4.1 "Canonical `value` regeneration"). -/
def renderPart : TopicPart → String
  | .exact s => s
  | .any n => "\x7b" ++ n ++ "\x7d"
  | .range xs => "(" ++ String.intercalate "|" xs ++ ")"
  | .pattern p => "/" ++ p ++ "/"

/-- Join rendered parts with `.` separators. -/
def joinDots : List String → String
  | [] => ""
  | [p] => p
  | p :: ps => p ++ "." ++ joinDots ps

/-- Canonical `value` of a topic: parts rejoined with `.` (§3). -/
def topicValue (parts : List TopicPart) : String :=
  joinDots (parts.map renderPart)

/-- Whether a part is an `Exact` literal. -/
def isExactPart : TopicPart → Bool
  | .exact _ => true
  | _ => false

/-- `is_exact`: true iff every part is `Exact` (§3). -/
def isExactTopic (parts : List TopicPart) : Bool :=
  parts.all isExactPart

/-- One node of a match result: `{matched: bool, literal: string}` (§4.2). -/
structure MatchNode where
  matched : Bool
  literal : String
  deriving DecidableEq, Repr

/-- Modelled from the spec: the per-variant match predicate of §4.2.  `rx r s`
stands in for the external regex engine's full match of regex `r` against
string `s`. -/
def matchPart (rx : String → String → Bool) : TopicPart → TopicPart → Bool
  | .exact s, .exact t => s == t
  | .exact _, _ => false
  | .any _, _ => true
  | .range opts, .exact t => opts.contains t
  | .range _, _ => false
  | .pattern r, .exact t => rx r t
  | .pattern _, _ => false

/-- Modelled from the spec: one match node per part position (§4.2): each
node carries whether that position matched and the concrete part's
literal. -/
def matchNodes (rx : String → String → Bool)
    (pat concrete : List TopicPart) : List MatchNode :=
  List.zipWith (fun pp cp => MatchNode.mk (matchPart rx pp cp) (renderPart cp))
    pat concrete

/-- Modelled from the spec: the whole-topic match decision (§4.2): part-count
mismatch is no match; otherwise the match result is returned iff every node
matched. -/
def matchTopic (rx : String → String → Bool)
    (pat concrete : List TopicPart) : Option (List MatchNode) :=
  if pat.length ≠ concrete.length then none
  else if (matchNodes rx pat concrete).all (fun n => n.matched) then
    some (matchNodes rx pat concrete)
  else none

/-- The per-part requirement exactly as the claim states it, on the concrete
part's literal: `Exact(s)` requires the literal to equal `s`, `Any` matches
anything, `Range(opts)` requires membership in `opts`, `Pattern(r)` requires
the regex to fully match the literal. -/
def claimPartPred (rx : String → String → Bool) (pp : TopicPart)
    (lit : String) : Bool :=
  match pp with
  | .exact s => lit == s
  | .any _ => true
  | .range opts => opts.contains lit
  | .pattern r => rx r lit

/-- A regex-compilation oracle accepting every regex (concrete instantiation
for witnesses). -/
def rxOk : String → Bool := fun _ => true

/-- A regex-match oracle matching nothing (concrete instantiation for
witnesses; no `Pattern` part occurs in them). -/
def rxNone : String → String → Bool := fun _ _ => false

/-- A regex-compilation oracle rejecting every regex (concrete instantiation
showing results that cannot depend on regex compilation). -/
def rxNoneV : String → Bool := fun _ => false

/-- A payload/handler argument value (ints and strings are what the tests
pass around). -/
inductive Val where
  | vint (n : Int)
  | vstr (s : String)
  | vbool (b : Bool)
  deriving DecidableEq, Repr

/-- A keyword-argument mapping, in insertion order. -/
abbrev Kwargs := List (String × Val)

/-- Modelled from the spec: the message payload (§3): topic, positional
arguments, keyword arguments, sequence id. -/
structure MessagePayload where
  topic : List TopicPart
  args : List Val
  kwargs : Kwargs
  seq_id : Nat
  deriving DecidableEq, Repr

/-- The arguments one handler invocation receives: the positional arguments,
the keyword-argument mapping, and — for `with_topic` handlers only — the
`topic` keyword. -/
structure HandlerInput where
  args : List Val
  kwargs : Kwargs
  topic : Option (List TopicPart)
  deriving DecidableEq, Repr

/-- What one handler invocation does: optionally raises (`exn`), leaves its
(received) keyword-argument dict in some final state (`kwargsAfter`, the
mutation a handler may perform on the mapping it was given), and takes
`elapsed_ns` nanoseconds. -/
structure HandlerOutcome where
  exn : Option String
  kwargsAfter : Kwargs
  elapsed_ns : Nat
  deriving DecidableEq, Repr

/-- Modelled from the spec: a registered handler.  Python compares handlers
by callable identity; `id` models that identity.  `wantsTopic` models the
parameter-introspection classification of `add_handler` (§4.4): true iff the
callable accepts a `topic` keyword or a catch-all keyword bag.  `run` is the
handler's (arbitrary) behaviour. -/
structure Handler where
  id : Nat
  wantsTopic : Bool
  run : HandlerInput → HandlerOutcome

/-- Modelled from the spec: the event hook (§3, §4.4): owning topic plus two
ordered handler buckets, `without_topic` and `with_topic`. -/
structure EventHook where
  topic : List TopicPart
  without_topic : List Handler
  with_topic : List Handler

/-- All handlers of a hook, `without_topic` bucket first. -/
def EventHook.handlers (hook : EventHook) : List Handler :=
  hook.without_topic ++ hook.with_topic

/-- `len(hook)`: sum of both buckets (§4.4). -/
def EventHook.size (hook : EventHook) : Nat :=
  hook.without_topic.length + hook.with_topic.length

/-- Whether the hook holds a handler with this identity. -/
def EventHook.holds (hook : EventHook) (hid : Nat) : Bool :=
  hook.handlers.any (fun h => h.id == hid)

/-- Modelled from the spec: `add_handler(fn, deduplicate)` (§4.4): a second
add of the same function is a no-op under deduplication; otherwise the
handler is appended to the bucket its classification selects. -/
def EventHook.add_handler (hook : EventHook) (h : Handler) (dedup : Bool) :
    EventHook :=
  if dedup ∧ hook.holds h.id then hook
  else if h.wantsTopic then
    { hook with with_topic := hook.with_topic ++ [h] }
  else
    { hook with without_topic := hook.without_topic ++ [h] }

/-- Remove the first handler with the given identity from a bucket. -/
def removeFirst (hid : Nat) : List Handler → List Handler
  | [] => []
  | h :: hs => if h.id == hid then hs else h :: removeFirst hid hs

/-- Modelled from the spec: `remove_handler(fn)` (§4.4): removes the first
occurrence from whichever bucket holds it. -/
def EventHook.remove_handler (hook : EventHook) (hid : Nat) : EventHook :=
  if hook.without_topic.any (fun h => h.id == hid) then
    { hook with without_topic := removeFirst hid hook.without_topic }
  else
    { hook with with_topic := removeFirst hid hook.with_topic }

/-- One entry of the trigger's call trace: which handler ran, with which
arguments, and what it did. -/
structure CallRecord where
  hid : Nat
  input : HandlerInput
  outcome : HandlerOutcome
  deriving DecidableEq, Repr

/-- One caught-and-logged handler failure: handler identity, topic value,
exception detail (§4.4, §6 "Logger contract"). -/
structure ErrorLog where
  hid : Nat
  topicValue : String
  message : String
  deriving DecidableEq, Repr

/-- The result of one `trigger`: the full call trace and the caught
exceptions.  `trigger` itself never raises. -/
structure TriggerResult where
  calls : List CallRecord
  errors : List ErrorLog
  deriving DecidableEq, Repr

/-- The copy of the payload's keyword arguments handed to one handler
(`dict(payload.kwargs)`): a fresh traversal of the mapping. -/
def copyKwargs (k : Kwargs) : Kwargs :=
  k.foldr (fun kv acc => kv :: acc) []

/-- Modelled from the spec: run one bucket of handlers in order (§4.4).  Each
handler receives the payload's positional arguments and a fresh copy of the
payload's keyword arguments (never the dict state an earlier handler left
behind); an exception is caught and logged and the next handler proceeds. -/
def runBucket (tv : String) (payload : MessagePayload)
    (mt : Option (List TopicPart)) :
    List Handler → List CallRecord × List ErrorLog
  | [] => ([], [])
  | h :: hs =>
    let input : HandlerInput := ⟨payload.args, copyKwargs payload.kwargs, mt⟩
    let out := h.run input
    let rest := runBucket tv payload mt hs
    (⟨h.id, input, out⟩ :: rest.1,
      match out.exn with
      | some m => ⟨h.id, tv, m⟩ :: rest.2
      | none => rest.2)

/-- Modelled from the spec: `trigger(payload)` (§4.4): every `without_topic`
handler first in registration order with `(*args, **kwargs)`, then every
`with_topic` handler with `(*args, topic=matched_topic, **kwargs)`; each call
isolated — exceptions caught and logged, never propagated. -/
def EventHook.trigger (hook : EventHook) (payload : MessagePayload) :
    TriggerResult :=
  let tv := topicValue hook.topic
  let r1 := runBucket tv payload none hook.without_topic
  let r2 := runBucket tv payload (some payload.topic) hook.with_topic
  ⟨r1.1 ++ r2.1, r1.2 ++ r2.2⟩

/-- Dispatch a sequence of payloads to a hook, one at a time, in order (the
single-consumer loop restricted to one hook). -/
def dispatchList (hook : EventHook) (ps : List MessagePayload) :
    List TriggerResult :=
  ps.map hook.trigger

/-- Per-handler statistics record: `{calls, total_time_ns}` (§4.4
"Statistics variant"). -/
structure StatRecord where
  calls : Nat
  total_time_ns : Nat
  deriving DecidableEq, Repr

/-- Look a handler's record up in a statistics map. -/
def lookupStat (st : List (Nat × StatRecord)) (hid : Nat) :
    Option StatRecord :=
  (st.find? (fun kv => kv.1 == hid)).map (fun kv => kv.2)

/-- A handler's record in a statistics map, defaulting to the all-zero
record when the handler has none yet. -/
def lookupStatD (st : List (Nat × StatRecord)) (hid : Nat) : StatRecord :=
  (lookupStat st hid).getD ⟨0, 0⟩

/-- Modelled from the spec: the statistics variant of the event hook
(`EventHookEx`): an event hook plus a per-handler statistics map. -/
structure EventHookEx where
  hook : EventHook
  stats : List (Nat × StatRecord)

/-- `get_stats(fn)`: the handler's record, or none when it has no record. -/
def EventHookEx.get_stats (ex : EventHookEx) (hid : Nat) : Option StatRecord :=
  lookupStat ex.stats hid

/-- The handler's record before an invocation, defaulting to the all-zero
record when the handler has none yet. -/
def EventHookEx.statOrZero (ex : EventHookEx) (hid : Nat) : StatRecord :=
  (ex.get_stats hid).getD ⟨0, 0⟩

/-- Record one invocation of handler `hid` taking `elapsed` ns: bump `calls`
and `total_time_ns`, creating the record on first invocation. -/
def updateStat (stats : List (Nat × StatRecord)) (hid : Nat) (elapsed : Nat) :
    List (Nat × StatRecord) :=
  match stats with
  | [] => [(hid, ⟨1, elapsed⟩)]
  | (k, r) :: rest =>
    if k == hid then (k, ⟨r.calls + 1, r.total_time_ns + elapsed⟩) :: rest
    else (k, r) :: updateStat rest hid elapsed

/-- Modelled from the spec: `EventHookEx.trigger` records statistics around
every invocation, including failing ones (§4.4 "Statistics variant"). -/
def EventHookEx.trigger (ex : EventHookEx) (payload : MessagePayload) :
    TriggerResult × EventHookEx :=
  let r := ex.hook.trigger payload
  let stats' := r.calls.foldl
    (fun st c => updateStat st c.hid c.outcome.elapsed_ns) ex.stats
  (r, ⟨ex.hook, stats'⟩)

/-- Modelled from the spec: engine state (§3): the two-tier index
(`exact_index` keyed by the topic's canonical value, plus `pattern_list`),
the bounded FIFO queue, the monotonic sequence counter and the lifecycle
flag. -/
structure EventEngine where
  capacity : Nat
  exact_index : List (String × EventHook)
  pattern_list : List EventHook
  queue : List MessagePayload
  seq_counter : Nat
  active : Bool

/-- `new(capacity)`: empty engine, inactive (§4.5). -/
def EventEngine.new (capacity : Nat) : EventEngine :=
  ⟨capacity, [], [], [], 0, false⟩

/-- `len(engine)`: number of registered hooks, both tiers (§8 invariant 7). -/
def EventEngine.size (e : EventEngine) : Nat :=
  e.exact_index.length + e.pattern_list.length

/-- Find the hook registered under a topic, if any: exact hash path for
exact topics, pattern scan path otherwise (lookup is by canonical value). -/
def EventEngine.get_hook (e : EventEngine) (t : List TopicPart) :
    Option EventHook :=
  if isExactTopic t then
    (e.exact_index.find? (fun kv => kv.1 == topicValue t)).map (fun kv => kv.2)
  else
    e.pattern_list.find? (fun hk => topicValue hk.topic == topicValue t)

/-- Insert or replace an assoc entry, keeping position on replacement. -/
def assocSet (l : List (String × EventHook)) (k : String) (v : EventHook) :
    List (String × EventHook) :=
  match l with
  | [] => [(k, v)]
  | (k', v') :: rest =>
    if k' == k then (k, v) :: rest else (k', v') :: assocSet rest k v

/-- Replace the hook registered under value `k` in the pattern tier, or
append it. -/
def patternSet (l : List EventHook) (k : String) (v : EventHook) :
    List EventHook :=
  match l with
  | [] => [v]
  | h :: rest =>
    if topicValue h.topic == k then v :: rest else h :: patternSet rest k v

/-- Store a hook under topic `t` in the tier `t.is_exact` selects. -/
def EventEngine.setHook (e : EventEngine) (t : List TopicPart)
    (hk : EventHook) : EventEngine :=
  if isExactTopic t then
    { e with exact_index := assocSet e.exact_index (topicValue t) hk }
  else
    { e with pattern_list := patternSet e.pattern_list (topicValue t) hk }

/-- Drop the hook registered under topic `t` (dict `del` / list removal). -/
def EventEngine.dropHook (e : EventEngine) (t : List TopicPart) : EventEngine :=
  if isExactTopic t then
    { e with exact_index :=
        e.exact_index.filter (fun kv => kv.1 != topicValue t) }
  else
    { e with pattern_list :=
        e.pattern_list.filter (fun hk => topicValue hk.topic != topicValue t) }

/-- Modelled from the spec: `register_hook(hook)` (§4.5): duplicate key is
`DuplicateTopic`; otherwise insert into `exact_index` or `pattern_list`
according to `topic.is_exact`. -/
def EventEngine.register_hook (e : EventEngine) (hk : EventHook) :
    Except EngineError EventEngine :=
  match e.get_hook hk.topic with
  | some _ => .error .duplicateTopic
  | none => .ok (e.setHook hk.topic hk)

/-- Modelled from the spec: `register_handler(topic, fn)` (§4.5): creates the
hook if absent, then delegates to `add_handler` (with deduplication). -/
def EventEngine.register_handler (e : EventEngine) (t : List TopicPart)
    (h : Handler) : EventEngine :=
  match e.get_hook t with
  | some hk => e.setHook t (hk.add_handler h true)
  | none => e.setHook t ((EventHook.mk t [] []).add_handler h true)

/-- Modelled from the spec and the repository's tests:
`unregister_handler(topic, fn)` — unknown topic is `UnknownTopic`
(`KeyError`); otherwise the handler is removed from the hook and, when it was
the hook's last handler, the now-empty hook is evicted from the engine
(`test_unregister_handler_removes_empty_hook` pins `len(engine) == 0` and
`test_remove_handler_safe` pins `get_hook` raising `KeyError` afterwards). -/
def EventEngine.unregister_handler (e : EventEngine) (t : List TopicPart)
    (hid : Nat) : Except EngineError EventEngine :=
  match e.get_hook t with
  | none => .error .unknownTopic
  | some hk =>
    let hk' := hk.remove_handler hid
    if hk'.size = 0 then .ok (e.dropHook t) else .ok (e.setHook t hk')

/-- Modelled from the spec: `put(topic, *args, **kwargs)` (§4.5): only exact
topics may be enqueued (`InvalidTopic` otherwise); a full queue fails with
`Full` (the blocking wait is modelled by its non-blocking outcome); otherwise
a payload with a fresh `seq_id` is appended to the FIFO. -/
def EventEngine.put (e : EventEngine) (t : List TopicPart) (args : List Val)
    (kwargs : Kwargs) : Except EngineError EventEngine :=
  if ¬ isExactTopic t then .error .invalidTopic
  else if e.capacity ≤ e.queue.length then .error .full
  else .ok { e with
    queue := e.queue ++ [⟨t, args, kwargs, e.seq_counter + 1⟩],
    seq_counter := e.seq_counter + 1 }

/-- Modelled from the spec: `publish(topic, args_tuple, kwargs_map)` (§4.5):
same as `put` but without positional/keyword flattening. -/
def EventEngine.publish (e : EventEngine) (t : List TopicPart)
    (args : List Val) (kwargs : Kwargs) : Except EngineError EventEngine :=
  e.put t args kwargs

/-- Concrete fixture: the exact topic `abc.efg` used by the hook tests. -/
def topicAbcEfg : List TopicPart := [.exact "abc", .exact "efg"]

/-- Concrete fixture: a well-behaved `without_topic` handler. -/
def hNormal : Handler :=
  ⟨1, false, fun inp => ⟨none, inp.kwargs, 5⟩⟩

/-- Concrete fixture: a `without_topic` handler that raises. -/
def hRaising : Handler :=
  ⟨2, false, fun _ => ⟨some "Handler error", [], 7⟩⟩

/-- Concrete fixture: a `with_topic` handler that mutates the
keyword-argument dict it received. -/
def hWithTopic : Handler :=
  ⟨3, true, fun inp => ⟨none, ("z", Val.vint 888) :: inp.kwargs, 9⟩⟩

/-- Concrete fixture: a payload on `abc.efg` with one positional and one
keyword argument. -/
def samplePayload : MessagePayload :=
  ⟨topicAbcEfg, [Val.vint 1], [("d", Val.vint 432)], 0⟩

/-- Concrete fixture: a hook on `abc.efg` holding `hNormal`, `hRaising`
(without-topic bucket, in that order) and `hWithTopic` (with-topic bucket). -/
def sampleHook : EventHook := ⟨topicAbcEfg, [hNormal, hRaising], [hWithTopic]⟩

/-- Concrete fixture: the statistics variant of `sampleHook`, no records
yet. -/
def sampleHookEx : EventHookEx := ⟨sampleHook, []⟩

/-- Concrete fixture: the exact topic `test.topic` used by the engine
tests. -/
def tTestTopic : List TopicPart := [.exact "test", .exact "topic"]

/-- Concrete fixture: a fresh engine with `hNormal` registered on
`test.topic` (as in `test_unregister_handler_removes_empty_hook`). -/
def sampleEngine : EventEngine :=
  (EventEngine.new 16).register_handler tTestTopic hNormal

/-- Concrete fixture: the hook `sampleEngine` holds under `test.topic`. -/
def sampleTestHook : EventHook := ⟨tTestTopic, [hNormal], []⟩

end Capi

namespace Legacy

/-- The legacy `Topic` object (`EventEngine/Core/_Topic.py`): a `dict`
subclass carrying a `_value` string; `match` results carry the extracted
key/value entries. -/
structure Topic where
  value : String
  entries : List (String × String)
  deriving DecidableEq, Repr

/-- `Topic.__bool__` returns `True` unconditionally
(`_Topic.py` lines 27–28). -/
def Topic.toBool (_ : Topic) : Bool := true

/-- Errors a Python call can surface in this embedding: the guarded
`Topic.Error` and the unguarded `IndexError` that `pattern_part[0]` raises on
an empty pattern part. -/
inductive PyError where
  | topicError
  | indexError
  deriving DecidableEq, Repr

/-- One step of `PatternTopic.extract_mapping`'s loop (`_Topic.py` lines
118–128), over the zipped `(result_part, pattern_part)` pairs, accumulating
the mapping dict.  A pattern part shaped `{name}` binds; any other pattern
part must equal the result part or the dict is cleared and returned empty;
`pattern_part[0]` on an empty pattern part raises `IndexError`. -/
def extractGo (acc : List (String × String)) :
    List (String × String) → Except PyError (List (String × String))
  | [] => .ok acc
  | (rpart, ppart) :: rest =>
    match ppart.data with
    | [] => .error .indexError
    | c :: _ =>
      if c = '{' ∧ ppart.data.getLast? = some '}' then
        extractGo (acc ++ [(String.mk ((ppart.data.drop 1).dropLast), rpart)])
          rest
      else if rpart = ppart then extractGo acc rest
      else .ok []

/-- `PatternTopic.extract_mapping(target, pattern)` (`_Topic.py` lines
105–130): split both on `.`; a part-count mismatch returns the empty dict;
otherwise walk the parts, returning the (possibly cleared) dict. -/
def extract_mapping (target pattern : String) :
    Except PyError (List (String × String)) :=
  let result_parts := Capi.splitOnChar '.' target
  let pattern_parts := Capi.splitOnChar '.' pattern
  if result_parts.length ≠ pattern_parts.length then .ok []
  else extractGo [] (result_parts.zip pattern_parts)

/-- `PatternTopic.match(topic)` (`_Topic.py` lines 143–150): call
`extract_mapping`, build a `Topic` from the input string, update it with the
extracted entries, return it.  Only `Topic.Error` is caught (`except
self.Error: return None`); `extract_mapping` never raises `Topic.Error`, and
an `IndexError` propagates uncaught. -/
def patternMatch (pattern target : String) : Except PyError (Option Topic) :=
  match extract_mapping target pattern with
  | .ok kw => .ok (some ⟨target, kw⟩)
  | .error .topicError => .ok none
  | .error e => .error e

end Legacy

namespace Capi

/-! Validation of the parser model against `test/capi_topic_test.py`. -/

example : parseTopic rxOk "exact" = .ok [.exact "exact"] := rfl
example : parseTopic rxOk "+valid" = .ok [.any "valid"] := rfl
example : parseTopic rxOk "(a|b)" = .ok [.range ["a", "b"]] := rfl
example : parseTopic rxOk "./pat/." = .ok [.pattern "pat"] := rfl
example : parseTopic rxOk "base./user\\.(test|prod)/.+suffix" =
    .ok [.exact "base", .pattern "user\\.(test|prod)", .any "suffix"] := rfl
example : parseTopic rxOk "pre.+" = .ok [.exact "pre", .exact "+"] := rfl
example : parseTopic rxOk "+" = .ok [.exact "+"] := rfl
example : parseTopic rxOk "a.+b.c" =
    .ok [.exact "a", .any "b", .exact "c"] := rfl
example : parseTopic rxOk "pre.().post" =
    .ok [.exact "pre", .exact "()", .exact "post"] := rfl
example : parseTopic rxOk "(x)" = .ok [.range ["x"]] := rfl
example : parseTopic rxOk "abc./unclosed" = .error .invalidTopic := rfl
example : parseTopic rxOk "" = .error .invalidTopic := rfl
example : (matchTopic rxNone
    [.exact "event", .range ["user", "admin"], .exact "action"]
    [.exact "event", .exact "admin", .exact "action"]).isSome = true := rfl
example : (matchTopic rxNone
    [.exact "event", .range ["user", "admin"], .exact "action"]
    [.exact "event", .exact "guest", .exact "action"]).isSome = false := rfl
example : (matchTopic rxNone [.exact "a", .exact "b"]
    [.exact "a", .exact "b", .exact "c"]).isSome = false := rfl
example : matchTopic rxNone [.exact "a", .any "x"]
    [.exact "a", .exact "test"] =
    some [⟨true, "a"⟩, ⟨true, "test"⟩] := rfl

/-- A pattern part matched against an exact concrete part succeeds exactly
when the claim's per-variant requirement holds of the concrete literal. -/
lemma matchPart_exact_iff (rx : String → String → Bool) (pp : TopicPart)
    (t : String) :
    matchPart rx pp (.exact t) = true ↔
      claimPartPred rx pp (renderPart (.exact t)) = true := by
  cases pp with
  | exact s =>
    simp only [matchPart, claimPartPred, renderPart, beq_iff_eq]
    exact eq_comm
  | any n => simp [matchPart, claimPartPred]
  | range opts => simp [matchPart, claimPartPred, renderPart]
  | pattern r => simp [matchPart, claimPartPred, renderPart]

/-- The conjunction of the per-part match nodes over the zipped parts holds
exactly when the claim's per-part requirement holds at every index. -/
lemma all_zipWith_iff (rx : String → String → Bool) (ps cs : List TopicPart)
    (hx : isExactTopic cs = true) (h : ps.length = cs.length) :
    ((matchNodes rx ps cs).all (fun n => n.matched) = true ↔
      ∀ i (h1 : i < ps.length) (h2 : i < cs.length),
        claimPartPred rx (ps.get ⟨i, h1⟩) (renderPart (cs.get ⟨i, h2⟩))
          = true) := by
  induction ps generalizing cs with
  | nil =>
    cases cs with
    | nil => simp [matchNodes]
    | cons c cs => simp at h
  | cons p ps ih =>
    cases cs with
    | nil => simp at h
    | cons c cs =>
      have hx' : isExactPart c = true ∧ isExactTopic cs = true := by
        simpa [isExactTopic] using hx
      obtain ⟨t, rfl⟩ : ∃ t, c = TopicPart.exact t := by
        cases c with
        | exact t => exact ⟨t, rfl⟩
        | any n => simp [isExactPart] at hx'
        | range o => simp [isExactPart] at hx'
        | pattern r => simp [isExactPart] at hx'
      have hlen : ps.length = cs.length := by simpa using h
      have hcons : matchNodes rx (p :: ps) (TopicPart.exact t :: cs) =
          MatchNode.mk (matchPart rx p (TopicPart.exact t))
            (renderPart (TopicPart.exact t)) :: matchNodes rx ps cs := by
        simp [matchNodes]
      constructor
      · intro hall i h1 h2
        rw [hcons, List.all_cons, Bool.and_eq_true] at hall
        match i with
        | 0 =>
          exact (matchPart_exact_iff rx p t).mp hall.1
        | Nat.succ j =>
          exact (ih cs hx'.2 hlen).mp hall.2 j (Nat.lt_of_succ_lt_succ h1)
            (Nat.lt_of_succ_lt_succ h2)
      · intro hfa
        rw [hcons, List.all_cons, Bool.and_eq_true]
        refine ⟨(matchPart_exact_iff rx p t).mpr
          (hfa 0 (Nat.succ_pos _) (Nat.succ_pos _)), ?_⟩
        refine (ih cs hx'.2 hlen).mpr ?_
        intro j hj1 hj2
        exact hfa (j + 1) (Nat.succ_lt_succ hj1) (Nat.succ_lt_succ hj2)

/-- Claim C1: for every pattern topic `p` and concrete exact topic `t`,
`match(p, t)` succeeds if and only if `p` and `t` have the same number of
parts and every per-part predicate holds at its index: an `Exact(s)` part
requires the concrete part to equal `s`, an `Any` part matches any concrete
part, a `Range(opts)` part requires the concrete literal to be a member of
`opts`, and a `Pattern(r)` part requires `r` to fully match the concrete
literal. -/
theorem c1_match_iff (rx : String → String → Bool)
    (pat concrete : List TopicPart) (hx : isExactTopic concrete = true) :
    (matchTopic rx pat concrete).isSome = true ↔
      (pat.length = concrete.length ∧
        ∀ i (h1 : i < pat.length) (h2 : i < concrete.length),
          claimPartPred rx (pat.get ⟨i, h1⟩)
            (renderPart (concrete.get ⟨i, h2⟩)) = true) := by
  unfold matchTopic
  by_cases hlen : pat.length = concrete.length
  · rw [if_neg (fun hne => hne hlen)]
    by_cases hall :
        (matchNodes rx pat concrete).all (fun n => n.matched) = true
    · rw [if_pos hall]
      constructor
      · intro _
        exact ⟨hlen, (all_zipWith_iff rx pat concrete hx hlen).mp hall⟩
      · intro _
        rfl
    · rw [if_neg hall]
      constructor
      · intro habs
        simp at habs
      · intro hrhs
        exact absurd ((all_zipWith_iff rx pat concrete hx hlen).mpr hrhs.2)
          hall
  · rw [if_pos hlen]
    constructor
    · intro habs
      simp at habs
    · intro hrhs
      exact absurd hrhs.1 hlen

/-- Witness for C1 at the inputs of
`TestTopicMatching.test_range_match`: pattern `event.(user|admin).action`
against concrete `event.admin.action`. -/
theorem c1_match_iff_witness :
    isExactTopic [TopicPart.exact "event", TopicPart.exact "admin",
      TopicPart.exact "action"] = true ∧
    ((matchTopic rxNone
        [TopicPart.exact "event", TopicPart.range ["user", "admin"],
          TopicPart.exact "action"]
        [TopicPart.exact "event", TopicPart.exact "admin",
          TopicPart.exact "action"]).isSome = true ↔
      (([TopicPart.exact "event", TopicPart.range ["user", "admin"],
          TopicPart.exact "action"] : List TopicPart).length =
        ([TopicPart.exact "event", TopicPart.exact "admin",
          TopicPart.exact "action"] : List TopicPart).length ∧
        ∀ i (h1 : i < ([TopicPart.exact "event",
            TopicPart.range ["user", "admin"],
            TopicPart.exact "action"] : List TopicPart).length)
          (h2 : i < ([TopicPart.exact "event", TopicPart.exact "admin",
            TopicPart.exact "action"] : List TopicPart).length),
          claimPartPred rxNone
            (([TopicPart.exact "event", TopicPart.range ["user", "admin"],
              TopicPart.exact "action"] : List TopicPart).get ⟨i, h1⟩)
            (renderPart (([TopicPart.exact "event", TopicPart.exact "admin",
              TopicPart.exact "action"] : List TopicPart).get ⟨i, h2⟩))
            = true)) :=
  ⟨by decide, c1_match_iff rxNone
    [TopicPart.exact "event", TopicPart.range ["user", "admin"],
      TopicPart.exact "action"]
    [TopicPart.exact "event", TopicPart.exact "admin",
      TopicPart.exact "action"] (by decide)⟩

/-- In the `(…)` span state, a character list containing no `)` is wholly
accumulated into the current part and the splitter succeeds. -/
lemma splitGo_inRange_no_close (parts : List String) (cs : List Char) :
    ∀ (acc : List Char), ')' ∉ cs → acc ≠ [] →
      splitGo cs acc .inRange parts = .ok (parts ++ [String.mk (acc ++ cs)])
    := by
  induction cs with
  | nil =>
    intro acc _ hacc
    simp [splitGo, flushPart, hacc]
  | cons c rest ih =>
    intro acc h2 hacc
    have hc : ¬ c = ')' := fun h => h2 (h ▸ List.mem_cons_self c rest)
    have h2' : ')' ∉ rest := fun h => h2 (List.mem_cons_of_mem c h)
    rw [splitGo, if_neg hc, ih (acc ++ [c]) h2' (by simp)]
    simp

/-- A part beginning with `(` and containing no `)` is classified
`Exact` (rule 2 requires a closing `)`; rules 1, 3, 4 cannot apply). -/
lemma classify_unclosed_paren (rxv : String → Bool) (cs : List Char)
    (h1 : cs.head? = some '(') (h2 : ')' ∉ cs) :
    classifyChars rxv cs = .ok (.exact (String.mk cs)) := by
  have hlast : ¬ cs.getLast? = some ')' := by
    intro h
    rcases List.getLast?_eq_some_iff.mp h with ⟨ys, rfl⟩
    exact h2 (by simp)
  unfold classifyChars
  rw [if_neg fun h => by rw [h1] at h; simpa using h.1,
    if_neg fun h => hlast h.2,
    if_neg (by rw [h1]; simp),
    if_neg fun h => by rw [h1] at h; simpa using h.1]

/-- When the split phase succeeds with a non-empty part list, parsing is
classification of those parts. -/
lemma parseTopic_of_split (rxv : String → Bool) (s : String)
    (parts : List String) (h : splitTopic s = .ok parts) (hne : parts ≠ []) :
    parseTopic rxv s = classifyAll rxv parts := by
  unfold parseTopic
  rw [h]
  simp only [Except.bind]
  rw [if_neg hne]

/-- Counterexample to claim C7 as stated: the input `"(unclosed"` has a part
that starts with `(` and has no closing `)`, yet parsing does not fail: it
succeeds with the literal `Exact` part, exactly as
`TestTopicParsing.test_range_edge_cases` asserts. -/
theorem c7_counterexample :
    parseTopic rxOk "(unclosed" = .ok [TopicPart.exact "(unclosed"] := rfl

/-- Claim C7 (amended): a part that starts with `(` and has no closing `)`
is not a parse failure: the whole span (dots included) is taken literally
and classified `Exact`, so parsing succeeds; by contrast an unclosed `/…/`
span is an `InvalidTopic` parse failure. -/
theorem c7_amended_unclosed_paren (rxv : String → Bool) (s : String)
    (h1 : s.data.head? = some '(') (h2 : ')' ∉ s.data) :
    parseTopic rxv s = .ok [TopicPart.exact s] ∧
    parseTopic rxOk "./no_close" = .error .invalidTopic := by
  refine ⟨?_, rfl⟩
  obtain ⟨cs', hcs⟩ : ∃ cs', s.data = '(' :: cs' := by
    cases hd : s.data with
    | nil => rw [hd] at h1; simp at h1
    | cons c rest =>
      rw [hd] at h1
      simp only [List.head?_cons, Option.some.injEq] at h1
      exact ⟨rest, by rw [h1]⟩
  have h2' : ')' ∉ cs' := by
    rw [hcs] at h2
    exact fun h => h2 (List.mem_cons_of_mem _ h)
  have hstep : splitGo ('(' :: cs') [] .normal [] =
      splitGo cs' ['('] .inRange [] := by
    rw [splitGo]
    rw [if_neg (by simp), if_neg (by simp), if_pos (by simp)]
  have hsplit : splitTopic s = .ok [String.mk s.data] := by
    unfold splitTopic
    rw [hcs, hstep, splitGo_inRange_no_close [] cs' ['('] h2' (by simp)]
    simp
  rw [parseTopic_of_split rxv s [String.mk s.data] hsplit (by simp)]
  unfold classifyAll classifyPart
  rw [show (String.mk s.data).data = s.data from rfl,
    classify_unclosed_paren rxv s.data h1 h2]
  rfl

/-- Witness for the amended C7 at the concrete input `"(a.b|c"` (starts with
`(`, contains dots and no `)`): parsing succeeds with the literal part. -/
theorem c7_amended_witness :
    ("(a.b|c" : String).data.head? = some '(' ∧
    ')' ∉ ("(a.b|c" : String).data ∧
    (parseTopic rxNoneV "(a.b|c" = .ok [TopicPart.exact "(a.b|c"] ∧
      parseTopic rxOk "./no_close" = .error .invalidTopic) :=
  ⟨by decide, by decide,
    c7_amended_unclosed_paren rxNoneV "(a.b|c" (by decide) (by decide)⟩

/-- Claim C9: a part consisting of the single character `+` is classified
`Exact("+")`, while a part that starts with `+` and has length at least 2 is
classified `Any` with name the rest of the part. -/
theorem c9_plus_classification (rxv : String → Bool) (s : String)
    (h1 : s.data.head? = some '+') (h2 : 2 ≤ s.length) :
    classifyPart rxv s = .ok (.any (String.mk (s.data.drop 1))) ∧
    classifyPart rxv "+" = .ok (.exact "+") := by
  refine ⟨?_, rfl⟩
  obtain ⟨cs', hcs⟩ : ∃ cs', s.data = '+' :: cs' := by
    cases hd : s.data with
    | nil => rw [hd] at h1; simp at h1
    | cons c rest =>
      rw [hd] at h1
      simp only [List.head?_cons, Option.some.injEq] at h1
      exact ⟨rest, by rw [h1]⟩
  have hlen : 2 ≤ ('+' :: cs').length := by
    have : s.length = s.data.length := rfl
    rw [this, hcs] at h2
    exact h2
  unfold classifyPart classifyChars
  rw [hcs]
  rw [if_neg fun h => by simpa using h.1,
    if_neg fun h => by simpa using h.1,
    if_pos (by simp), if_pos hlen]

/-- Witness for C9 at the concrete inputs `"+abc"` (from
`TestTopicParsing.test_wildcard_edge_cases` case 3) and `"+"`. -/
theorem c9_plus_classification_witness :
    ("+abc" : String).data.head? = some '+' ∧ 2 ≤ ("+abc" : String).length ∧
    (classifyPart rxOk "+abc" =
        .ok (.any (String.mk (("+abc" : String).data.drop 1))) ∧
      classifyPart rxOk "+" = .ok (.exact "+")) :=
  ⟨by decide, by decide,
    c9_plus_classification rxOk "+abc" (by decide) (by decide)⟩

/-! Validation of the hook model against `test/capi_hook_test.py`:
three handlers on `abc.efg`, the second of which raises; the trigger trace
has all three calls, one caught error, and the `topic` keyword only on the
`with_topic` handler. -/

example : (sampleHook.trigger samplePayload).calls.length = 3 := rfl
example : (sampleHook.trigger samplePayload).errors =
    [⟨2, "abc.efg", "Handler error"⟩] := rfl
example : (sampleHook.trigger samplePayload).calls.map
    (fun c => c.input.topic) = [none, none, some topicAbcEfg] := rfl
example : (sampleHook.trigger samplePayload).calls.map (fun c => c.hid) =
    [1, 2, 3] := rfl

/-- The copy of a keyword-argument mapping has the same entries. -/
lemma copyKwargs_eq (k : Kwargs) : copyKwargs k = k := by
  induction k with
  | nil => rfl
  | cons kv rest ih =>
    simp only [copyKwargs, List.foldr_cons] at ih ⊢
    rw [ih]

/-- The call trace of one bucket: every handler of the bucket, in order,
invoked with the payload's positional arguments, the payload's keyword
arguments, and the given `topic` keyword. -/
lemma runBucket_calls (tv : String) (payload : MessagePayload)
    (mt : Option (List TopicPart)) (hs : List Handler) :
    (runBucket tv payload mt hs).1.map (fun c => (c.hid, c.input)) =
      hs.map (fun h =>
        (h.id, HandlerInput.mk payload.args payload.kwargs mt)) := by
  induction hs with
  | nil => rfl
  | cons h hs ih => simp [runBucket, copyKwargs_eq, ih]

/-- The handler identities of one bucket's call trace, in order. -/
lemma runBucket_hids (tv : String) (payload : MessagePayload)
    (mt : Option (List TopicPart)) (hs : List Handler) :
    (runBucket tv payload mt hs).1.map (fun c => c.hid) =
      hs.map (fun h => h.id) := by
  induction hs with
  | nil => rfl
  | cons h hs ih => simp [runBucket, ih]

/-- The error log of one bucket is exactly the caught exceptions of its call
trace: raising never aborts the bucket, it only adds a log entry. -/
lemma runBucket_errors (tv : String) (payload : MessagePayload)
    (mt : Option (List TopicPart)) (hs : List Handler) :
    (runBucket tv payload mt hs).2 =
      (runBucket tv payload mt hs).1.filterMap (fun c =>
        c.outcome.exn.map (fun m => ErrorLog.mk c.hid tv m)) := by
  induction hs with
  | nil => rfl
  | cons h hs ih =>
    simp only [runBucket, List.filterMap_cons]
    cases hout :
        (h.run ⟨payload.args, copyKwargs payload.kwargs, mt⟩).exn with
    | none => simpa [hout] using ih
    | some m => simpa [hout] using ih

/-- Every call record of one bucket carries the payload's own arguments. -/
lemma runBucket_input (tv : String) (payload : MessagePayload)
    (mt : Option (List TopicPart)) (hs : List Handler) :
    ∀ c ∈ (runBucket tv payload mt hs).1,
      c.input = HandlerInput.mk payload.args payload.kwargs mt := by
  induction hs with
  | nil => intro c hc; simp [runBucket] at hc
  | cons h hs ih =>
    intro c hc
    simp only [runBucket, List.mem_cons] at hc
    rcases hc with hc | hc
    · rw [hc]
      simp [copyKwargs_eq]
    · exact ih c hc

/-- Claim C2: `trigger(payload)` invokes all `without_topic` handlers first,
in registration order, with the payload's positional and keyword arguments,
and only then every `with_topic` handler with the positional arguments plus
a `topic` keyword carrying the matched topic and the payload's keyword
arguments. -/
theorem c2_trigger_order (hook : EventHook) (payload : MessagePayload) :
    (hook.trigger payload).calls.map (fun c => (c.hid, c.input)) =
      hook.without_topic.map (fun h =>
        (h.id, HandlerInput.mk payload.args payload.kwargs none)) ++
      hook.with_topic.map (fun h =>
        (h.id, HandlerInput.mk payload.args payload.kwargs
          (some payload.topic))) := by
  simp only [EventHook.trigger, List.map_append, runBucket_calls]

/-- Claim C3: a raising handler never prevents the rest of the dispatch: in
every trigger result of a payload sequence, the call trace covers every
registered handler of both buckets in order (so handlers after a raiser, and
later payloads, are still dispatched), and exceptions surface only as caught
log entries of the result, never as a propagated exception. -/
theorem c3_exception_isolation (hook : EventHook) (ps : List MessagePayload)
    (r : TriggerResult) (hr : r ∈ dispatchList hook ps) :
    r.calls.map (fun c => c.hid) = hook.handlers.map (fun h => h.id) ∧
    r.errors = r.calls.filterMap (fun c =>
      c.outcome.exn.map (fun m =>
        ErrorLog.mk c.hid (topicValue hook.topic) m)) := by
  simp only [dispatchList] at hr
  obtain ⟨p, _, rfl⟩ := List.mem_map.mp hr
  constructor
  · simp only [EventHook.trigger, List.map_append, runBucket_hids,
      EventHook.handlers]
  · simp only [EventHook.trigger, List.filterMap_append]
    rw [← runBucket_errors, ← runBucket_errors]

/-- Witness for C3: the sample hook (whose second handler raises) dispatched
over two payloads; the theorem applies to the second payload's result. -/
theorem c3_exception_isolation_witness :
    sampleHook.trigger samplePayload ∈
      dispatchList sampleHook [samplePayload, samplePayload] ∧
    ((sampleHook.trigger samplePayload).calls.map (fun c => c.hid) =
        sampleHook.handlers.map (fun h => h.id) ∧
      (sampleHook.trigger samplePayload).errors =
        (sampleHook.trigger samplePayload).calls.filterMap (fun c =>
          c.outcome.exn.map (fun m =>
            ErrorLog.mk c.hid (topicValue sampleHook.topic) m))) :=
  ⟨by simp [dispatchList],
    c3_exception_isolation sampleHook [samplePayload, samplePayload]
      (sampleHook.trigger samplePayload) (by simp [dispatchList])⟩

/-- Claim C5: every handler invocation of a dispatch receives the payload's
own positional arguments and (a copy of) the payload's own keyword
arguments: the dict state an earlier handler left behind (`kwargsAfter`) is
never what a later handler receives, and the payload's `args`/`kwargs` are
what every handler observes. -/
theorem c5_kwargs_copy_isolation (hook : EventHook)
    (payload : MessagePayload) (c : CallRecord)
    (hc : c ∈ (hook.trigger payload).calls) :
    c.input.kwargs = payload.kwargs ∧ c.input.args = payload.args := by
  simp only [EventHook.trigger] at hc
  rcases List.mem_append.mp hc with hmem | hmem
  · rw [runBucket_input _ payload none hook.without_topic c hmem]
    exact ⟨rfl, rfl⟩
  · rw [runBucket_input _ payload (some payload.topic) hook.with_topic c hmem]
    exact ⟨rfl, rfl⟩

/-- Witness for C5: the first call record of the sample dispatch (handler 1)
received exactly the payload's arguments, even though handler 3 mutates the
mapping it receives. -/
theorem c5_kwargs_copy_isolation_witness :
    (⟨1, ⟨[Val.vint 1], [("d", Val.vint 432)], none⟩,
        ⟨none, [("d", Val.vint 432)], 5⟩⟩ : CallRecord) ∈
      (sampleHook.trigger samplePayload).calls ∧
    ((⟨1, ⟨[Val.vint 1], [("d", Val.vint 432)], none⟩,
        ⟨none, [("d", Val.vint 432)], 5⟩⟩ : CallRecord).input.kwargs =
      samplePayload.kwargs ∧
      (⟨1, ⟨[Val.vint 1], [("d", Val.vint 432)], none⟩,
        ⟨none, [("d", Val.vint 432)], 5⟩⟩ : CallRecord).input.args =
      samplePayload.args) :=
  ⟨by decide, c5_kwargs_copy_isolation sampleHook samplePayload _ (by decide)⟩

/-! Validation of the statistics variant against
`TestEventHookEx.test_stats_tracking`: every handler gets a record on each
trigger, failures included; unknown handlers have none; a second trigger
bumps the records. -/

example : (sampleHookEx.trigger samplePayload).2.get_stats 1 =
    some ⟨1, 5⟩ := rfl
example : (sampleHookEx.trigger samplePayload).2.get_stats 2 =
    some ⟨1, 7⟩ := rfl
example : (sampleHookEx.trigger samplePayload).2.get_stats 99 = none := rfl
example : (((sampleHookEx.trigger samplePayload).2).trigger
    samplePayload).2.get_stats 1 = some ⟨2, 10⟩ := rfl

/-- Looking up the updated handler after `updateStat` yields its old record
(zero on first invocation) bumped by one call and the elapsed time. -/
lemma updateStat_self (st : List (Nat × StatRecord)) (hid : Nat) (e : Nat) :
    lookupStat (updateStat st hid e) hid =
      some ⟨(lookupStatD st hid).calls + 1,
        (lookupStatD st hid).total_time_ns + e⟩ := by
  induction st with
  | nil => simp [updateStat, lookupStat, lookupStatD]
  | cons kv rest ih =>
    obtain ⟨k, r⟩ := kv
    by_cases hk : k = hid
    · subst hk
      simp [updateStat, lookupStat, lookupStatD]
    · simpa [updateStat, lookupStat, lookupStatD, hk] using ih

/-- `updateStat` leaves every other handler's record untouched. -/
lemma updateStat_other (st : List (Nat × StatRecord)) (hid k e : Nat)
    (hne : ¬ k = hid) :
    lookupStat (updateStat st hid e) k = lookupStat st k := by
  induction st with
  | nil => simp [updateStat, lookupStat, Ne.symm hne]
  | cons kv rest ih =>
    obtain ⟨k', r⟩ := kv
    by_cases hk' : k' = hid
    · subst hk'
      simp [updateStat, lookupStat, Ne.symm hne]
    · by_cases hkk : k' = k
      · subst hkk
        simp [updateStat, lookupStat, hk']
      · simpa [updateStat, lookupStat, hk', hkk] using ih

/-- `updateStat` leaves every other handler's defaulted record untouched. -/
lemma updateStat_other_D (st : List (Nat × StatRecord)) (hid k e : Nat)
    (hne : ¬ k = hid) :
    lookupStatD (updateStat st hid e) k = lookupStatD st k := by
  unfold lookupStatD
  rw [updateStat_other st hid k e hne]

/-- Folding the statistics update over a call trace that never mentions a
handler leaves that handler's record untouched. -/
lemma foldl_updateStat_untouched (calls : List CallRecord)
    (st : List (Nat × StatRecord)) (hid : Nat)
    (h : ∀ c ∈ calls, ¬ c.hid = hid) :
    lookupStat (calls.foldl
        (fun s c => updateStat s c.hid c.outcome.elapsed_ns) st) hid =
      lookupStat st hid := by
  induction calls generalizing st with
  | nil => rfl
  | cons c cs ih =>
    simp only [List.foldl_cons]
    rw [ih _ (fun d hd => h d (List.mem_cons_of_mem c hd))]
    exact updateStat_other st c.hid hid c.outcome.elapsed_ns
      (fun he => h c (List.mem_cons_self c cs) he.symm)

/-- Folding the statistics update over a duplicate-free call trace gives
each invoked handler its old record bumped by one call and its invocation's
elapsed time. -/
lemma foldl_updateStat_mem (calls : List CallRecord) (c : CallRecord)
    (hmem : c ∈ calls) (hnd : (calls.map (fun c => c.hid)).Nodup) :
    ∀ st : List (Nat × StatRecord),
    lookupStat (calls.foldl
        (fun s d => updateStat s d.hid d.outcome.elapsed_ns) st) c.hid =
      some ⟨(lookupStatD st c.hid).calls + 1,
        (lookupStatD st c.hid).total_time_ns + c.outcome.elapsed_ns⟩ := by
  induction calls with
  | nil => exact absurd hmem (List.not_mem_nil c)
  | cons d ds ih =>
    intro st
    have hnd' : (∀ x ∈ ds, ¬ x.hid = d.hid) ∧
        (ds.map (fun c => c.hid)).Nodup := by simpa using hnd
    rcases List.mem_cons.mp hmem with rfl | hmem'
    · simp only [List.foldl_cons]
      rw [foldl_updateStat_untouched ds _ c.hid (fun d' hd' => hnd'.1 d' hd')]
      exact updateStat_self st c.hid c.outcome.elapsed_ns
    · have hne : ¬ c.hid = d.hid := hnd'.1 c hmem'
      simp only [List.foldl_cons]
      rw [ih hmem' hnd'.2 (updateStat st d.hid d.outcome.elapsed_ns)]
      rw [updateStat_other_D st d.hid c.hid d.outcome.elapsed_ns hne]

/-- Claim C8: in the statistics variant, every invocation of a handler
(failing ones included — `c` ranges over the whole call trace, raising or
not) updates that handler's `{calls, total_time_ns}` record, and `get_stats`
returns the updated record; a handler that was neither invoked nor already
recorded still has no record. -/
theorem c8_stats_per_handler (ex : EventHookEx) (payload : MessagePayload)
    (hnd : ((ex.hook.trigger payload).calls.map (fun c => c.hid)).Nodup) :
    (∀ c ∈ (ex.hook.trigger payload).calls,
      ((ex.trigger payload).2).get_stats c.hid =
        some ⟨(ex.statOrZero c.hid).calls + 1,
          (ex.statOrZero c.hid).total_time_ns + c.outcome.elapsed_ns⟩) ∧
    (∀ hid : Nat, (∀ c ∈ (ex.hook.trigger payload).calls, ¬ c.hid = hid) →
      ex.get_stats hid = none →
      ((ex.trigger payload).2).get_stats hid = none) := by
  constructor
  · intro c hc
    simp only [EventHookEx.trigger, EventHookEx.get_stats]
    rw [foldl_updateStat_mem (ex.hook.trigger payload).calls c hc hnd
      ex.stats]
    simp [EventHookEx.statOrZero, EventHookEx.get_stats, lookupStatD]
  · intro hid hno hnone
    simp only [EventHookEx.trigger, EventHookEx.get_stats]
    rw [foldl_updateStat_untouched (ex.hook.trigger payload).calls ex.stats
      hid hno]
    simpa [EventHookEx.get_stats] using hnone

/-- Witness for C8: the sample statistics hook triggered once; its three
handlers (one of which raises) all have distinct identities. -/
theorem c8_stats_per_handler_witness :
    ((sampleHookEx.hook.trigger samplePayload).calls.map
      (fun c => c.hid)).Nodup ∧
    ((∀ c ∈ (sampleHookEx.hook.trigger samplePayload).calls,
      ((sampleHookEx.trigger samplePayload).2).get_stats c.hid =
        some ⟨(sampleHookEx.statOrZero c.hid).calls + 1,
          (sampleHookEx.statOrZero c.hid).total_time_ns
            + c.outcome.elapsed_ns⟩) ∧
    (∀ hid : Nat,
      (∀ c ∈ (sampleHookEx.hook.trigger samplePayload).calls,
        ¬ c.hid = hid) →
      sampleHookEx.get_stats hid = none →
      ((sampleHookEx.trigger samplePayload).2).get_stats hid = none)) :=
  ⟨by decide, c8_stats_per_handler sampleHookEx samplePayload (by decide)⟩

/-! Validation of the engine model against `test/capi_engine_test.py`:
blocking-free queue behaviour and the non-exact-topic guard. -/

example : ((EventEngine.new 2).put tTestTopic [] []).map
    (fun e => e.queue.length) = .ok 1 := rfl
example : (((EventEngine.new 1).put tTestTopic [] []).bind
    (fun e => e.put tTestTopic [] [])) = .error .full := rfl
example : ((EventEngine.new 2).put tTestTopic [] []).map
    (fun e => e.queue.map (fun p => p.seq_id)) = .ok [1] := rfl
example : sampleEngine.size = 1 := rfl

/-- Claim C4: `put` and `publish` on a non-exact topic fail with
`InvalidTopic` without enqueueing anything (the error return leaves the
engine untouched); only exact topics may be published. -/
theorem c4_publish_requires_exact (e : EventEngine) (t : List TopicPart)
    (args : List Val) (kwargs : Kwargs) (h : isExactTopic t = false) :
    e.put t args kwargs = .error .invalidTopic ∧
    e.publish t args kwargs = .error .invalidTopic := by
  have hcond : ¬ (isExactTopic t = true) := by simp [h]
  constructor
  · unfold EventEngine.put
    rw [if_pos hcond]
  · unfold EventEngine.publish EventEngine.put
    rw [if_pos hcond]

/-- Witness for C4 at the non-exact topic `test.+any` of
`test_put_non_exact_topic_raises_valueerror`. -/
theorem c4_publish_requires_exact_witness :
    isExactTopic [TopicPart.exact "test", TopicPart.any "any"] = false ∧
    ((EventEngine.new 16).put
        [TopicPart.exact "test", TopicPart.any "any"] [Val.vint 1] [] =
      .error .invalidTopic ∧
    (EventEngine.new 16).publish
        [TopicPart.exact "test", TopicPart.any "any"] [Val.vint 1] [] =
      .error .invalidTopic) :=
  ⟨by decide, c4_publish_requires_exact (EventEngine.new 16)
    [TopicPart.exact "test", TopicPart.any "any"] [Val.vint 1] []
    (by decide)⟩

/-- `remove_handler` does not change the hook's owning topic. -/
lemma remove_handler_topic (hk : EventHook) (hid : Nat) :
    (hk.remove_handler hid).topic = hk.topic := by
  unfold EventHook.remove_handler
  split <;> rfl

/-- Looking the stored key up after `assocSet` yields the stored value. -/
lemma assocSet_find (l : List (String × EventHook)) (k : String)
    (v : EventHook) :
    (assocSet l k v).find? (fun kv => kv.1 == k) = some (k, v) := by
  induction l with
  | nil => simp [assocSet]
  | cons kv rest ih =>
    obtain ⟨k', v'⟩ := kv
    by_cases hk : k' = k
    · subst hk
      simp [assocSet]
    · simp [assocSet, hk, ih]

/-- Looking the stored value up after `patternSet` yields it. -/
lemma patternSet_find (l : List EventHook) (k : String) (v : EventHook)
    (hv : (topicValue v.topic == k) = true) :
    (patternSet l k v).find? (fun hk => topicValue hk.topic == k) =
      some v := by
  induction l with
  | nil => simp [patternSet, hv]
  | cons h rest ih =>
    by_cases hh : (topicValue h.topic == k) = true
    · simp [patternSet, hh, hv]
    · simp only [patternSet]
      rw [if_neg (by simpa using hh)]
      simp [List.find?_cons, hh, ih]

/-- After `setHook` on an exact topic the hook is registered under it. -/
lemma setHook_get_exact (e : EventEngine) (t : List TopicPart)
    (hk : EventHook) (hx : isExactTopic t = true) :
    (e.setHook t hk).get_hook t = some hk := by
  unfold EventEngine.setHook EventEngine.get_hook
  rw [if_pos hx, if_pos hx]
  simp [assocSet_find]

/-- After `setHook` on a pattern topic whose hook's value matches, the hook
is registered under it. -/
lemma setHook_get_pattern (e : EventEngine) (t : List TopicPart)
    (hk : EventHook) (hx : isExactTopic t = false)
    (hv : (topicValue hk.topic == topicValue t) = true) :
    (e.setHook t hk).get_hook t = some hk := by
  unfold EventEngine.setHook EventEngine.get_hook
  rw [if_neg (by simp [hx]), if_neg (by simp [hx])]
  simp [patternSet_find _ _ _ hv]

/-- After `dropHook` no hook is registered under the topic. -/
lemma dropHook_get (e : EventEngine) (t : List TopicPart) :
    (e.dropHook t).get_hook t = none := by
  unfold EventEngine.dropHook EventEngine.get_hook
  by_cases hx : isExactTopic t = true
  · rw [if_pos hx, if_pos hx]
    have hfind : List.find? (fun kv => kv.1 == topicValue t)
        (List.filter (fun kv => kv.1 != topicValue t) e.exact_index) =
          none := by
      apply List.find?_eq_none.mpr
      intro kv hkv
      have hne := (List.mem_filter.mp hkv).2
      simp only [bne_iff_ne, ne_eq] at hne
      simp [hne]
    simp [hfind]
  · rw [if_neg (by simp [hx]), if_neg (by simp [hx])]
    apply List.find?_eq_none.mpr
    intro hk hhk
    have hne := (List.mem_filter.mp hhk).2
    simp only [bne_iff_ne, ne_eq] at hne
    simp [hne]

/-- Counterexample to claim C6 as stated: in the pinned scenario of
`test_unregister_handler_removes_empty_hook` (one topic, one handler),
removing the last handler does NOT leave the hook registered: the engine's
hook count drops from 1 to 0 and the hook is gone. -/
theorem c6_counterexample :
    sampleEngine.size = 1 ∧
    (sampleEngine.unregister_handler tTestTopic 1).map EventEngine.size =
      .ok 0 ∧
    (sampleEngine.unregister_handler tTestTopic 1).map
      (fun e => (e.get_hook tTestTopic).isSome) = .ok false :=
  ⟨rfl, rfl, rfl⟩

/-- Claim C6 (amended): `unregister_handler(t, fn)` removes `fn` from `t`'s
hook; when `fn` was the hook's last handler the now-empty hook is also
evicted from the engine (the topic is no longer registered), and otherwise
the hook stays registered with `fn` removed. -/
theorem c6_amended_eviction (e : EventEngine) (t : List TopicPart)
    (hid : Nat) (hk : EventHook) (h : e.get_hook t = some hk) :
    ((hk.remove_handler hid).size = 0 →
      e.unregister_handler t hid = .ok (e.dropHook t) ∧
      (e.dropHook t).get_hook t = none) ∧
    ((hk.remove_handler hid).size ≠ 0 →
      e.unregister_handler t hid = .ok (e.setHook t (hk.remove_handler hid)) ∧
      (e.setHook t (hk.remove_handler hid)).get_hook t =
        some (hk.remove_handler hid)) := by
  constructor
  · intro hz
    refine ⟨?_, dropHook_get e t⟩
    unfold EventEngine.unregister_handler
    rw [h]
    simp [hz]
  · intro hnz
    refine ⟨?_, ?_⟩
    · unfold EventEngine.unregister_handler
      rw [h]
      simp [hnz]
    · by_cases hx : isExactTopic t = true
      · exact setHook_get_exact e t _ hx
      · have hxf : isExactTopic t = false := by
          cases hxx : isExactTopic t
          · rfl
          · exact absurd hxx hx
        have hfind : e.pattern_list.find?
            (fun hk => topicValue hk.topic == topicValue t) = some hk := by
          unfold EventEngine.get_hook at h
          rw [if_neg (by simp [hxf])] at h
          exact h
        have hv := List.find?_some hfind
        exact setHook_get_pattern e t _ hxf
          (by rw [remove_handler_topic]; exact hv)

/-- Witness for the amended C6 at the pinned scenario: the sample engine's
only hook holds only handler 1, so unregistering it evicts the hook. -/
theorem c6_amended_eviction_witness :
    sampleEngine.get_hook tTestTopic = some sampleTestHook ∧
    (((sampleTestHook.remove_handler 1).size = 0 →
      sampleEngine.unregister_handler tTestTopic 1 =
        .ok (sampleEngine.dropHook tTestTopic) ∧
      (sampleEngine.dropHook tTestTopic).get_hook tTestTopic = none) ∧
    ((sampleTestHook.remove_handler 1).size ≠ 0 →
      sampleEngine.unregister_handler tTestTopic 1 =
        .ok (sampleEngine.setHook tTestTopic
          (sampleTestHook.remove_handler 1)) ∧
      (sampleEngine.setHook tTestTopic
          (sampleTestHook.remove_handler 1)).get_hook tTestTopic =
        some (sampleTestHook.remove_handler 1))) :=
  ⟨rfl, c6_amended_eviction sampleEngine tTestTopic 1 sampleTestHook rfl⟩

end Capi

namespace Legacy

/-! Validation of the legacy tier embedding against
`EventEngine/Core/_Topic.py`. -/

example : extract_mapping "realtime.600010.TransactionData"
    "realtime.{ticker}.{dtype}" =
    .ok [("ticker", "600010"), ("dtype", "TransactionData")] := rfl
example : extract_mapping "a.c" "a.b" = .ok [] := rfl
example : extract_mapping "a.b.c" "a.b" = .ok [] := rfl
example : patternMatch "a..b" "a.x.b" = .error .indexError := rfl

/-- `extract_mapping`'s loop never raises when every pattern part is
non-empty: it returns some dictionary (possibly empty) for any target. -/
lemma extractGo_no_indexError (pairs : List (String × String))
    (h : ∀ pr ∈ pairs, pr.2 ≠ "") :
    ∀ acc, ∃ r, extractGo acc pairs = .ok r := by
  induction pairs with
  | nil => exact fun acc => ⟨acc, rfl⟩
  | cons pr rest ih =>
    intro acc
    obtain ⟨rpart, ppart⟩ := pr
    have hrest : ∀ pr ∈ rest, pr.2 ≠ "" :=
      fun pr hpr => h pr (List.mem_cons_of_mem _ hpr)
    have hne : ppart.data ≠ [] := by
      intro hd
      apply h (rpart, ppart) (List.mem_cons_self _ _)
      cases ppart with
      | mk d =>
        simp only at hd
        rw [hd]
    cases hd : ppart.data with
    | nil => exact absurd hd hne
    | cons c cs =>
      simp only [extractGo, hd]
      by_cases h1 : c = '{' ∧ (c :: cs).getLast? = some '}'
      · rw [if_pos h1]
        exact ih hrest _
      · rw [if_neg h1]
        by_cases h2 : rpart = ppart
        · rw [if_pos h2]
          exact ih hrest acc
        · rw [if_neg h2]
          exact ⟨[], rfl⟩

/-- Claim C10: the legacy `PatternTopic.match(topic)` returns a truthy
`Topic` for every input string, even one the pattern does not match:
`extract_mapping` signals a mismatch by returning an empty dictionary
instead of raising, `match` unconditionally builds and returns a `Topic`
carrying the input string, and `Topic.__bool__` always returns `True`.
(The hypothesis excludes degenerate patterns with an empty dotted segment,
for which `pattern_part[0]` raises `IndexError` on some inputs.) -/
theorem c10_legacy_match_always_truthy (pattern target : String)
    (h : ∀ p ∈ Capi.splitOnChar '.' pattern, p ≠ "") :
    ∃ t : Topic, patternMatch pattern target = .ok (some t) ∧
      t.toBool = true ∧ t.value = target := by
  unfold patternMatch extract_mapping
  by_cases hl : (Capi.splitOnChar '.' target).length ≠
      (Capi.splitOnChar '.' pattern).length
  · rw [if_pos hl]
    exact ⟨⟨target, []⟩, rfl, rfl, rfl⟩
  · rw [if_neg hl]
    have hp : ∀ pr ∈ (Capi.splitOnChar '.' target).zip
        (Capi.splitOnChar '.' pattern), pr.2 ≠ "" := by
      intro pr hpr
      obtain ⟨a, b⟩ := pr
      exact h b (List.of_mem_zip hpr).2
    obtain ⟨r, hr⟩ := extractGo_no_indexError _ hp []
    rw [hr]
    exact ⟨⟨target, r⟩, rfl, rfl, rfl⟩

/-- Witness for C10 at the inputs of
`test_realtime_ticker_dtype_match`: the pattern
`realtime.{ticker}.{dtype}` does not match the 4-part target
`realtime.600010.SH.TransactionData`, yet the legacy matcher still returns
a truthy `Topic`. -/
theorem c10_legacy_match_always_truthy_witness :
    (∀ p ∈ Capi.splitOnChar '.' "realtime.{ticker}.{dtype}", p ≠ "") ∧
    (∃ t : Topic,
      patternMatch "realtime.{ticker}.{dtype}"
        "realtime.600010.SH.TransactionData" = .ok (some t) ∧
      t.toBool = true ∧ t.value = "realtime.600010.SH.TransactionData") :=
  ⟨by decide, c10_legacy_match_always_truthy "realtime.{ticker}.{dtype}"
    "realtime.600010.SH.TransactionData" (by decide)⟩

end Legacy

end PyEventEngine
